import Mathlib

/-!
Shallow embedding of the lighthouse trace-analysis core:
the non-composited-animations audit (correlation pairer, failure-code
decoder, diagnostic assembler), the AnimatedElements gatherer, and the
trace-elements layout-shift attributor / animated-element deduplicator.

JS `Map` objects are modelled as association lists in insertion order;
JS numbers used as bitmasks or node ids are modelled as `Nat`, layout
shift scores and rect geometry as `ℚ` (the JS floats on the tested
inputs are exact); fields that JS may leave `undefined` are `Option`s,
and the source's truthiness guards are modelled explicitly (`none` and
`some 0` are both falsy, as are `none` and `some ""` for strings).
-/

/-- `args.data` of a trace event: only the fields the audit reads. -/
structure EventData where
  nodeId : Option Nat
  compositeFailed : Option Nat
deriving DecidableEq, Repr

/-- A main-thread trace event, narrowed to the fields the audit reads.
`id2local` is `event.id2 && event.id2.local` (absent `id2` or absent
`local` collapse to `none`); `data` is `event.args.data`. -/
structure TraceEvent where
  name : String
  ph : String
  id2local : Option String
  data : Option EventData
deriving DecidableEq, Repr

/-- The per-key record of the correlation pairer:
`{begin: LH.TraceEvent | undefined, status: LH.TraceEvent | undefined}`. -/
structure Pair where
  begin : Option TraceEvent
  status : Option TraceEvent
deriving DecidableEq, Repr

/-- Association-list lookup, first binding wins (JS `Map.get`). -/
def alookup {β : Type} : List (String × β) → String → Option β
  | [], _ => none
  | (k', v) :: rest, k => if k' = k then some v else alookup rest k

/-- Association-list in-place update of an existing binding
(JS `Map.get` followed by mutation of the stored object). -/
def aupdate {β : Type} : List (String × β) → String → (β → β) → List (String × β)
  | [], _, _ => []
  | (k', v) :: rest, k, f =>
      if k' = k then (k', f v) :: rest else (k', v) :: aupdate rest k f

/-- The correlation key the pairer uses for an event: present only for
`Animation` events whose `id2.local` is truthy (`!event.id2 ||
!event.id2.local` guard). -/
def evKey (e : TraceEvent) : Option String :=
  if e.name = "Animation" then
    match e.id2local with
    | none => none
    | some l => if l = "" then none else some l
  else none

/-- The `switch (event.ph)` body of the pairer: `'b'` stores the begin
fragment, `'n'` stores the status fragment, anything else is ignored. -/
def applyPh (e : TraceEvent) (p : Pair) : Pair :=
  if e.ph = "b" then { p with begin := some e }
  else if e.ph = "n" then { p with status := some e }
  else p

/-- One iteration of the pairer's `forEach` over main-thread events:
skip non-`Animation` events and events without a truthy `id2.local`,
create the map entry on first sighting of a key, then mutate the stored
pair according to the event's phase. -/
def stepPair (acc : List (String × Pair)) (e : TraceEvent) : List (String × Pair) :=
  match evKey e with
  | none => acc
  | some k =>
      let acc' := if (alookup acc k).isSome then acc else acc ++ [(k, ⟨none, none⟩)]
      aupdate acc' k (applyPh e)

/-- The correlation pairer (`animationPairs` map of the audit), built by
a single forward pass over the main-thread events. -/
def buildPairs (evs : List TraceEvent) : List (String × Pair) :=
  evs.foldl stepPair []

/-- `true` iff `e` is a begin fragment for correlation key `k`. -/
def isBeginFor (k : String) (e : TraceEvent) : Bool :=
  evKey e = some k ∧ e.ph = "b"

/-- `true` iff `e` is a status fragment for correlation key `k`. -/
def isStatusFor (k : String) (e : TraceEvent) : Bool :=
  evKey e = some k ∧ e.ph = "n"

/-- Specification-side description of the pairer's stored state for one
key: present iff some pairer-relevant event carried the key, holding the
last begin fragment and the last status fragment seen for it (later
fragments overwrite earlier ones regardless of resolution). -/
def pairSpecLastWins (evs : List TraceEvent) (k : String) : Option Pair :=
  if evs.any (fun e => evKey e = some k) then
    some ⟨(evs.filter (isBeginFor k)).getLast?, (evs.filter (isStatusFor k)).getLast?⟩
  else none

/-- The static catalog of actionable failure reasons: a single entry,
bit `1 << 13`, text `'Unsupported CSS Property'`. -/
def ACTIONABLE_FAILURE_REASONS : List (Nat × String) :=
  [(1 <<< 13, "Unsupported CSS Property")]

/-- `getActionableFailureReasons` (the variant returning
`{failureReasons, hasNonActionable}`): walk the catalog, pushing the
text of every reason whose flag bit is set and clearing that bit from
the working code (`failureCode &= ~reason.flag`); afterwards
`hasNonActionable = Boolean(failureCode)` reports whether unexplained
bits remain. The source's `&` goes through ECMA-262 ToInt32, so each
use wraps the operand to its 32-bit pattern (`% 2 ^ 32` on a
nonnegative integer) and `~flag`'s pattern is `2 ^ 32 - 1 - flag`. An
int32 result is truthy iff its bit pattern is nonzero, and a code the
loop never assigns keeps its raw value, so the final
`Boolean(failureCode)` is `≠ 0` on the representative in both cases. -/
def getActionableFailureReasons (failureCode : Nat) : List String × Bool :=
  let r := ACTIONABLE_FAILURE_REASONS.foldl
    (fun (acc : List String × Nat) fr =>
      if (acc.2 % 2 ^ 32) &&& fr.1 ≠ 0
      then (acc.1 ++ [fr.2], (acc.2 % 2 ^ 32) &&& (2 ^ 32 - 1 - fr.1))
      else acc)
    ([], failureCode)
  (r.1, r.2 != 0)

/-- An `LH.Audit.Details.NodeValue` as the audit builds it: constant
placeholder path/selector/snippet, `nodeLabel = String(nodeId)`. -/
structure NodeValue where
  path : String
  selector : String
  nodeLabel : String
  snippet : String
deriving DecidableEq, Repr

/-- The node literal the audit pushes for a qualifying pair. -/
def mkNode (nodeId : Nat) : NodeValue :=
  ⟨"lcpElement.devtoolsNodePath", "lcpElement.selector", toString nodeId,
    "lcpElement.snippet"⟩

/-- The per-pair body of the audit's second `forEach`: the truthiness
guard chain (`!pair.begin || !pair.begin.args.data ||
!pair.begin.args.data.nodeId || !pair.status || !pair.status.args.data
|| !pair.status.args.data.compositeFailed`) followed by the
actionable-only decoder gate (`failureReasons.length === 0 ||
hasNonActionable`). Returns the decoded reasons and the node to record,
or `none` when the pair is skipped. -/
def qualifies (p : Pair) : Option (List String × NodeValue) :=
  match p.begin with
  | none => none
  | some b =>
    match b.data with
    | none => none
    | some bd =>
      match bd.nodeId with
      | none => none
      | some nid =>
        if nid = 0 then none else
        match p.status with
        | none => none
        | some s =>
          match s.data with
          | none => none
          | some sd =>
            match sd.compositeFailed with
            | none => none
            | some code =>
              if code = 0 then none else
              let r := getActionableFailureReasons code
              if r.1 = [] ∨ r.2 = true then none
              else some (r.1, mkNode nid)

/-- One iteration of the grouping pass: a qualifying pair either pushes
its node onto the existing `'~placeholder~'` entry or creates the entry
with this pair's decoded failure reasons. -/
def stepAnim (acc : List (String × List String × List NodeValue)) (p : Pair) :
    List (String × List String × List NodeValue) :=
  match qualifies p with
  | none => acc
  | some (rs, node) =>
    let animation := "~placeholder~"
    match alookup acc animation with
    | some _ => aupdate acc animation (fun d => (d.1, d.2 ++ [node]))
    | none => acc ++ [(animation, rs, [node])]

/-- The audit's `animations` map, folded over the pairer's output. -/
def collectAnimations (pairs : List Pair) :
    List (String × List String × List NodeValue) :=
  pairs.foldl stepAnim []

/-- A row of the audit's results table: `{animation, failureString,
subItems}` with `subItems` flattened to its node list. -/
structure TableItem where
  animation : String
  failureString : String
  subItems : List NodeValue
deriving DecidableEq, Repr

/-- The audit's `results` array: one row per `animations` entry, with
`failureString = failureReasons.join(', ')`. -/
def auditResults (evs : List TraceEvent) : List TableItem :=
  (collectAnimations ((buildPairs evs).map Prod.snd)).map
    (fun e => ⟨e.1, String.intercalate ", " e.2.1, e.2.2⟩)

/-- The nodes of every qualifying pair of the stream, in pairer order. -/
def qualifyingNodes (evs : List TraceEvent) : List NodeValue :=
  ((buildPairs evs).map Prod.snd).filterMap (fun p => (qualifies p).map Prod.snd)

/-- The AnimatedElements artifact entry the gatherer collects in-page. -/
structure AnimatedElement where
  nodeId : Nat
  devtoolsNodePath : String
  selector : String
  nodeLabel : String
  snippet : String
deriving DecidableEq, Repr

/-- The trace input of the gatherer; `computeTraceOfTab` is modelled as
the projection to the main-thread events the gatherer reads. -/
structure Trace where
  mainThreadEvents : List TraceEvent
deriving DecidableEq, Repr

/-- `loadData` as the gatherer reads it: the trace may be absent. -/
structure LoadData where
  trace : Option Trace
deriving DecidableEq, Repr

/-- The gatherer's `afterPass`: throws `'Trace is missing!'` when
`loadData.trace` is falsy; otherwise collects the `nodeId`s of
`Animation`/`'b'` events, skips falsy ids, and for each id asks the
driver (modelled by `resolve` for `resolveNodeIdToObjectId` and
`callFn` for the `Runtime.callFunctionOn` round trip) for the element
data, keeping only truthy responses. -/
def afterPass (resolve : Nat → Option String)
    (callFn : String → Nat → Option AnimatedElement)
    (loadData : LoadData) : Except String (List AnimatedElement) :=
  match loadData.trace with
  | none => Except.error "Trace is missing!"
  | some tr =>
    let animatedElementIds :=
      (tr.mainThreadEvents.filter (fun e => e.name = "Animation" ∧ e.ph = "b")).map
        (fun e => e.data.bind EventData.nodeId)
    Except.ok <| animatedElementIds.foldl
      (fun acc oid =>
        match oid with
        | none => acc
        | some id =>
          if id = 0 then acc else
          match resolve id with
          | none => acc
          | some objectId =>
            if objectId = "" then acc else
            match callFn objectId id with
            | none => acc
            | some elem => acc ++ [elem]) []

/-- A trace rect `[x, y, width, height]`. -/
structure Rect where
  x : ℚ
  y : ℚ
  w : ℚ
  h : ℚ
deriving DecidableEq, Repr

/-- Area of a rect. -/
def rectArea (r : Rect) : ℚ := r.w * r.h

/-- Area of the intersection of two rects (0 when disjoint). -/
def overlapArea (a b : Rect) : ℚ :=
  max 0 (min (a.x + a.w) (b.x + b.w) - max a.x b.x) *
    max 0 (min (a.y + a.h) (b.y + b.h) - max a.y b.y)

/-- Modelled from the spec: the per-region weight of the layout-shift
attributor (`trace-elements.js` `getTopLayoutShiftElements` is not under
`src/`, only its unit test). Spec §4.3 describes the weight as the
absolute area delta, but §9 directs that when fixtures disagree the
fixture-determined weighting is ground truth; the weighting the test
fixtures determine is the area of impact
`area(old_rect) + area(new_rect) - overlapArea(old_rect, new_rect)`. -/
def impactWeight (oldR newR : Rect) : ℚ :=
  rectArea oldR + rectArea newR - overlapArea oldR newR

/-- One impacted region of a layout-shift sample
(`{node_id, old_rect, new_rect}`). -/
structure ImpactedRegion where
  node_id : Nat
  old_rect : Rect
  new_rect : Rect
deriving DecidableEq, Repr

/-- One layout-shift sample: the shift event's `score` and its
`impacted_nodes`. -/
structure LayoutShiftSample where
  totalScore : ℚ
  impactedRegions : List ImpactedRegion
deriving DecidableEq, Repr

/-- The weights of a sample's regions, in region order. -/
def sampleWeights (s : LayoutShiftSample) : List ℚ :=
  s.impactedRegions.map (fun r => impactWeight r.old_rect r.new_rect)

/-- Modelled from the spec: each region's share of the sample's
`totalScore` is its weight over the sum of the sample's weights; when
that sum is zero, §4.3's division-safety rule splits the score equally
among the sample's regions. -/
def sampleShares (s : LayoutShiftSample) : List (Nat × ℚ) :=
  let total := (sampleWeights s).sum
  s.impactedRegions.map (fun r =>
    (r.node_id,
      if total = 0 then s.totalScore / s.impactedRegions.length
      else s.totalScore * impactWeight r.old_rect r.new_rect / total))

/-- Add `v` to the running score of `k` in the aggregation map,
appending a fresh entry for a first-seen element id. -/
def upsert : List (Nat × ℚ) → Nat → ℚ → List (Nat × ℚ)
  | [], k, v => [(k, v)]
  | (k', v') :: rest, k, v =>
      if k' = k then (k', v' + v) :: rest else (k', v') :: upsert rest k v

/-- Fold one sample's shares into the aggregation map. -/
def attributeSample (acc : List (Nat × ℚ)) (s : LayoutShiftSample) :
    List (Nat × ℚ) :=
  (sampleShares s).foldl (fun a kv => upsert a kv.1 kv.2) acc

/-- Modelled from the spec: the full element-to-cumulative-score
aggregation map of the attributor, in first-seen element order. -/
def attributeShifts (samples : List LayoutShiftSample) : List (Nat × ℚ) :=
  samples.foldl attributeSample []

/-- Stable descending insertion by score: an element moves ahead only of
strictly smaller scores, so equal scores keep their first-seen order. -/
def insertDesc (p : Nat × ℚ) : List (Nat × ℚ) → List (Nat × ℚ)
  | [] => [p]
  | q :: rest => if q.2 ≤ p.2 then p :: q :: rest else q :: insertDesc p rest

/-- Stable sort of the aggregation map by cumulative score descending. -/
def sortDesc : List (Nat × ℚ) → List (Nat × ℚ)
  | [] => []
  | p :: rest => insertDesc p (sortDesc rest)

/-- Modelled from the spec: `getTopLayoutShiftElements` — aggregate,
sort by cumulative score descending (stable, so ties stay in first-seen
order), and keep the top five. -/
def getTopLayoutShiftElements (samples : List LayoutShiftSample) :
    List (Nat × ℚ) :=
  (sortDesc (attributeShifts samples)).take 5

/-- Sum of the cumulative scores of an aggregation map. -/
def sumValues (l : List (Nat × ℚ)) : ℚ := (l.map Prod.snd).sum

/-- The sum of the absolute area deltas of a sample's regions
(the quantity the spec's §4.3 weighting description uses). -/
def absAreaDeltaSum (s : LayoutShiftSample) : ℚ :=
  (s.impactedRegions.map (fun r => |rectArea r.new_rect - rectArea r.old_rect|)).sum

/-- Modelled from the spec: the animated-element deduplicator keeps each
identifier's first occurrence and drops later repeats. -/
def firstSeenDedup : List Nat → List Nat
  | [] => []
  | x :: xs => x :: firstSeenDedup (xs.filter (fun y => y ≠ x))
termination_by l => l.length
decreasing_by
  simp only [List.length_cons]
  exact Nat.lt_succ_of_le (List.length_filter_le _ _)

/-- Modelled from the spec: `getAnimatedElements` — the node ids of the
animation-begin fragments, deduplicated in first-seen order
(`trace-elements.js` is not under `src/`, only its unit test). -/
def getAnimatedElements (evs : List TraceEvent) : List Nat :=
  firstSeenDedup (evs.filterMap (fun e =>
    if e.name = "Animation" ∧ e.ph = "b" then e.data.bind EventData.nodeId
    else none))

/-! ### Association-list lemmas -/

theorem alookup_append (l l' : List (String × Pair)) (k : String) :
    alookup (l ++ l') k = ((alookup l k).rec (alookup l' k) (fun v => some v)) := by
  induction l with
  | nil => simp [alookup]
  | cons hd tl ih =>
    obtain ⟨k', v⟩ := hd
    by_cases h : k' = k <;> simp [alookup, h, ih]

theorem alookup_aupdate_self (l : List (String × Pair)) (k : String) (f : Pair → Pair) :
    alookup (aupdate l k f) k = (alookup l k).map f := by
  induction l with
  | nil => simp [alookup, aupdate]
  | cons hd tl ih =>
    obtain ⟨k', v⟩ := hd
    by_cases h : k' = k <;> simp [alookup, aupdate, h, ih]

theorem alookup_aupdate_other (l : List (String × Pair)) (k k' : String)
    (f : Pair → Pair) (hk : k' ≠ k) : alookup (aupdate l k' f) k = alookup l k := by
  induction l with
  | nil => simp [alookup, aupdate]
  | cons hd tl ih =>
    obtain ⟨k₀, v⟩ := hd
    by_cases h : k₀ = k'
    · subst h
      simp [alookup, aupdate, hk, ih]
    · simp [alookup, aupdate, h, ih]

/-! ### Pairer step characterization -/

theorem alookup_stepPair (acc : List (String × Pair)) (e : TraceEvent) (k : String) :
    alookup (stepPair acc e) k =
      match evKey e with
      | some k' =>
          if k' = k then some (applyPh e ((alookup acc k).getD ⟨none, none⟩))
          else alookup acc k
      | none => alookup acc k := by
  unfold stepPair
  cases hkey : evKey e with
  | none => rfl
  | some k' =>
    simp only
    by_cases hk : k' = k
    · subst hk
      cases hl : alookup acc k' with
      | some p => simp [hl, alookup_aupdate_self]
      | none =>
        have h1 : alookup (acc ++ [(k', (⟨none, none⟩ : Pair))]) k' = some ⟨none, none⟩ := by
          simp [alookup_append, hl, alookup]
        simp [hl, alookup_aupdate_self, h1]
    · cases hl : alookup acc k' with
      | some p => simp [hl, alookup_aupdate_other _ _ _ _ hk, hk]
      | none =>
        have h1 : alookup (acc ++ [(k', (⟨none, none⟩ : Pair))]) k = alookup acc k := by
          cases h2 : alookup acc k <;> simp [alookup_append, h2, alookup, hk]
        simp [hl, alookup_aupdate_other _ _ _ _ hk, h1, hk]

theorem pairSpecLastWins_none_filters (l : List TraceEvent) (k : String)
    (ha : l.any (fun e => evKey e = some k) = false) :
    l.filter (isBeginFor k) = [] ∧ l.filter (isStatusFor k) = [] := by
  rw [List.any_eq_false] at ha
  constructor <;>
    · rw [List.filter_eq_nil_iff]
      intro a hal hp
      apply ha a hal
      simp [isBeginFor, isStatusFor] at hp
      simp [hp.1]

/-- What the correlation pairer actually stores for each key: the map
has an entry for `k` iff some pairer-relevant event carried `k`, and
that entry holds the last begin fragment and the last status fragment
seen for `k` — later fragments overwrite earlier ones whether or not
the key already held a status. -/
theorem alookup_buildPairs (evs : List TraceEvent) (k : String) :
    alookup (buildPairs evs) k = pairSpecLastWins evs k := by
  induction evs using List.reverseRecOn with
  | nil => simp [buildPairs, alookup, pairSpecLastWins]
  | append_singleton l e ih =>
    have hfold : buildPairs (l ++ [e]) = stepPair (buildPairs l) e := by
      simp [buildPairs, List.foldl_append]
    rw [hfold, alookup_stepPair, ih]
    cases hkey : evKey e with
    | none =>
      have hb : isBeginFor k e = false := by simp [isBeginFor, hkey]
      have hs : isStatusFor k e = false := by simp [isStatusFor, hkey]
      simp [pairSpecLastWins, List.any_append, List.filter_append, hkey, hb, hs]
    | some k' =>
      by_cases hk : k' = k
      · subst hk
        have hany : (l ++ [e]).any (fun e => evKey e = some k') = true := by
          simp [List.any_append, hkey]
        cases hsp : pairSpecLastWins l k' with
        | none =>
          have hl : l.any (fun e => evKey e = some k') = false := by
            cases hal : l.any (fun e => evKey e = some k') with
            | false => rfl
            | true => simp [pairSpecLastWins, hal] at hsp
          obtain ⟨hfb, hfs⟩ := pairSpecLastWins_none_filters l k' hl
          by_cases hb : e.ph = "b"
          · have h1 : isBeginFor k' e = true := by simp [isBeginFor, hkey, hb]
            have h2 : isStatusFor k' e = false := by simp [isStatusFor, hkey, hb]
            simp [pairSpecLastWins, hany, List.filter_append, hfb, hfs, h1, h2,
              applyPh, hb]
          · by_cases hn : e.ph = "n"
            · have h1 : isBeginFor k' e = false := by simp [isBeginFor, hkey, hb]
              have h2 : isStatusFor k' e = true := by simp [isStatusFor, hkey, hn]
              simp [pairSpecLastWins, hany, List.filter_append, hfb, hfs, h1, h2,
                applyPh, hb, hn]
            · have h1 : isBeginFor k' e = false := by simp [isBeginFor, hkey, hb]
              have h2 : isStatusFor k' e = false := by simp [isStatusFor, hkey, hn]
              simp [pairSpecLastWins, hany, List.filter_append, hfb, hfs, h1, h2,
                applyPh, hb, hn]
        | some p =>
          have hl : l.any (fun e => evKey e = some k') = true := by
            cases hal : l.any (fun e => evKey e = some k') with
            | true => rfl
            | false => simp [pairSpecLastWins, hal] at hsp
          have hp : p = ⟨(l.filter (isBeginFor k')).getLast?,
              (l.filter (isStatusFor k')).getLast?⟩ := by
            simp only [pairSpecLastWins, hl, if_true, Option.some_inj] at hsp
            exact hsp.symm
          subst hp
          by_cases hb : e.ph = "b"
          · have h1 : isBeginFor k' e = true := by simp [isBeginFor, hkey, hb]
            have h2 : isStatusFor k' e = false := by simp [isStatusFor, hkey, hb]
            simp [pairSpecLastWins, hany, List.filter_append, h1, h2, applyPh, hb]
          · by_cases hn : e.ph = "n"
            · have h1 : isBeginFor k' e = false := by simp [isBeginFor, hkey, hb]
              have h2 : isStatusFor k' e = true := by simp [isStatusFor, hkey, hn]
              simp [pairSpecLastWins, hany, List.filter_append, h1, h2, applyPh, hb, hn]
            · have h1 : isBeginFor k' e = false := by simp [isBeginFor, hkey, hb]
              have h2 : isStatusFor k' e = false := by simp [isStatusFor, hkey, hn]
              simp [pairSpecLastWins, hany, List.filter_append, h1, h2, applyPh, hb, hn]
      · have hb : isBeginFor k e = false := by simp [isBeginFor, hkey, hk]
        have hs : isStatusFor k e = false := by simp [isStatusFor, hkey, hk]
        simp [pairSpecLastWins, List.any_append, List.filter_append, hkey, hb, hs, hk]
/-! ### Diagnostic assembler characterization -/

theorem collectAnimations_go (pairs : List Pair) (rs : List String)
    (ns : List NodeValue) :
    pairs.foldl stepAnim [("~placeholder~", rs, ns)] =
      [("~placeholder~", rs, ns ++ (pairs.filterMap qualifies).map Prod.snd)] := by
  induction pairs generalizing ns with
  | nil => simp
  | cons p rest ih =>
    cases hq : qualifies p with
    | none =>
      rw [List.foldl_cons, show stepAnim [("~placeholder~", rs, ns)] p =
        [("~placeholder~", rs, ns)] by simp [stepAnim, hq], ih,
        List.filterMap_cons_none hq]
    | some rn =>
      obtain ⟨r, n⟩ := rn
      rw [List.foldl_cons, show stepAnim [("~placeholder~", rs, ns)] p =
        [("~placeholder~", rs, ns ++ [n])] by simp [stepAnim, hq, alookup, aupdate],
        ih, List.filterMap_cons_some hq]
      simp

theorem collectAnimations_eq_nil (pairs : List Pair)
    (h : pairs.filterMap qualifies = []) : collectAnimations pairs = [] := by
  induction pairs with
  | nil => simp [collectAnimations]
  | cons p rest ih =>
    cases hq : qualifies p with
    | none =>
      rw [List.filterMap_cons_none hq] at h
      rw [collectAnimations, List.foldl_cons,
        show stepAnim [] p = [] by simp [stepAnim, hq]]
      exact ih h
    | some rn => rw [List.filterMap_cons_some hq] at h; simp at h

theorem collectAnimations_eq_cons (pairs : List Pair) (rs : List String)
    (n : NodeValue) (rest : List (List String × NodeValue))
    (h : pairs.filterMap qualifies = (rs, n) :: rest) :
    collectAnimations pairs = [("~placeholder~", rs, n :: rest.map Prod.snd)] := by
  induction pairs generalizing rest with
  | nil => simp at h
  | cons p tail ih =>
    cases hq : qualifies p with
    | none =>
      rw [List.filterMap_cons_none hq] at h
      rw [collectAnimations, List.foldl_cons,
        show stepAnim [] p = [] by simp [stepAnim, hq]]
      exact ih _ h
    | some rn =>
      obtain ⟨r, m⟩ := rn
      rw [List.filterMap_cons_some hq] at h
      obtain ⟨h1, h2⟩ := List.cons_eq_cons.mp h
      obtain ⟨hr, hm⟩ := Prod.mk.injEq .. ▸ h1
      rw [collectAnimations, List.foldl_cons,
        show stepAnim [] p = [("~placeholder~", r, [m])] by simp [stepAnim, hq, alookup],
        collectAnimations_go]
      simp [hr, hm, h2]

/-! ### Attributor lemmas -/

theorem sumValues_upsert (l : List (Nat × ℚ)) (k : Nat) (v : ℚ) :
    sumValues (upsert l k v) = sumValues l + v := by
  induction l with
  | nil => simp [upsert, sumValues]
  | cons hd tl ih =>
    obtain ⟨k', v'⟩ := hd
    by_cases h : k' = k
    · simp [upsert, h, sumValues]
      ring
    · simp [upsert, h, sumValues] at ih ⊢
      rw [ih]
      ring

theorem sumValues_foldl_upsert (shares : List (Nat × ℚ)) (acc : List (Nat × ℚ)) :
    sumValues (shares.foldl (fun a kv => upsert a kv.1 kv.2) acc) =
      sumValues acc + (shares.map Prod.snd).sum := by
  induction shares generalizing acc with
  | nil => simp
  | cons hd tl ih =>
    rw [List.foldl_cons, ih, sumValues_upsert]
    simp
    ring

theorem sum_map_const_rat {α : Type} (l : List α) (c : ℚ) :
    (l.map (fun _ => c)).sum = l.length * c := by
  induction l with
  | nil => simp
  | cons hd tl ih =>
    simp [ih]
    ring

theorem sum_sampleShares (s : LayoutShiftSample) (h : s.impactedRegions ≠ []) :
    ((sampleShares s).map Prod.snd).sum = s.totalScore := by
  have hmap : (sampleShares s).map Prod.snd =
      s.impactedRegions.map (fun r =>
        if (sampleWeights s).sum = 0
        then s.totalScore / s.impactedRegions.length
        else s.totalScore * impactWeight r.old_rect r.new_rect /
          (sampleWeights s).sum) := by
    simp [sampleShares, List.map_map]
  rw [hmap]
  have hlen : (s.impactedRegions.length : ℚ) ≠ 0 := by
    simpa using h
  by_cases ht : (sampleWeights s).sum = 0
  · simp only [ht, if_true, eq_self_iff_true]
    rw [sum_map_const_rat, mul_div_cancel₀ _ hlen]
  · simp only [ht, if_false]
    simp only [mul_div_right_comm]
    rw [List.sum_map_mul_left]
    have hw : s.impactedRegions.map
        (fun r => impactWeight r.old_rect r.new_rect) = sampleWeights s := rfl
    rw [hw, div_mul_cancel₀ _ ht]

theorem sumValues_attributeSample (acc : List (Nat × ℚ)) (s : LayoutShiftSample)
    (h : s.impactedRegions ≠ []) :
    sumValues (attributeSample acc s) = sumValues acc + s.totalScore := by
  unfold attributeSample
  rw [sumValues_foldl_upsert, sum_sampleShares _ h]

theorem sumValues_attributeShifts_go (samples : List LayoutShiftSample)
    (acc : List (Nat × ℚ)) (h : ∀ s ∈ samples, s.impactedRegions ≠ []) :
    sumValues (samples.foldl attributeSample acc) =
      sumValues acc + (samples.map LayoutShiftSample.totalScore).sum := by
  induction samples generalizing acc with
  | nil => simp
  | cons s rest ih =>
    rw [List.foldl_cons, ih _ (fun x hx => h x (List.mem_cons_of_mem _ hx)),
      sumValues_attributeSample _ _ (h s (List.mem_cons_self _ _))]
    simp
    ring

/-- Score conservation over the full aggregation map. -/
theorem sumValues_attributeShifts (samples : List LayoutShiftSample)
    (h : ∀ s ∈ samples, s.impactedRegions ≠ []) :
    sumValues (attributeShifts samples) =
      (samples.map LayoutShiftSample.totalScore).sum := by
  unfold attributeShifts
  rw [sumValues_attributeShifts_go _ _ h]
  simp [sumValues]

/-! ### Sorting lemmas -/

theorem sumValues_insertDesc (p : Nat × ℚ) (l : List (Nat × ℚ)) :
    sumValues (insertDesc p l) = p.2 + sumValues l := by
  induction l with
  | nil => simp [insertDesc, sumValues]
  | cons q rest ih =>
    by_cases h : q.2 ≤ p.2
    · simp [insertDesc, h, sumValues]
    · simp [insertDesc, h, sumValues] at ih ⊢
      rw [ih]
      ring

theorem sumValues_sortDesc (l : List (Nat × ℚ)) :
    sumValues (sortDesc l) = sumValues l := by
  induction l with
  | nil => rfl
  | cons p rest ih =>
    rw [sortDesc, sumValues_insertDesc, ih]
    simp [sumValues]

theorem mem_insertDesc (p x : Nat × ℚ) (l : List (Nat × ℚ)) :
    x ∈ insertDesc p l ↔ x = p ∨ x ∈ l := by
  induction l with
  | nil => simp [insertDesc]
  | cons q rest ih =>
    by_cases h : q.2 ≤ p.2
    · simp [insertDesc, h]
    · simp [insertDesc, h, ih]
      tauto

theorem sorted_insertDesc (p : Nat × ℚ) (l : List (Nat × ℚ))
    (h : l.Pairwise (fun a b => b.2 ≤ a.2)) :
    (insertDesc p l).Pairwise (fun a b => b.2 ≤ a.2) := by
  induction l with
  | nil => simp [insertDesc]
  | cons q rest ih =>
    rw [List.pairwise_cons] at h
    by_cases hq : q.2 ≤ p.2
    · rw [insertDesc, if_pos hq, List.pairwise_cons]
      refine ⟨?_, List.pairwise_cons.mpr h⟩
      intro x hx
      rcases List.mem_cons.mp hx with hx | hx
      · exact hx ▸ hq
      · exact le_trans (h.1 x hx) hq
    · rw [insertDesc, if_neg hq, List.pairwise_cons]
      refine ⟨?_, ih h.2⟩
      intro x hx
      rcases (mem_insertDesc p x rest).mp hx with hx | hx
      · exact hx ▸ le_of_lt (lt_of_not_le hq)
      · exact h.1 x hx

theorem sorted_sortDesc (l : List (Nat × ℚ)) :
    (sortDesc l).Pairwise (fun a b => b.2 ≤ a.2) := by
  induction l with
  | nil => simp [sortDesc]
  | cons p rest ih => exact sorted_insertDesc p _ ih

/-! ### Deduplicator lemmas -/

theorem mem_firstSeenDedup (l : List Nat) (a : Nat) :
    a ∈ firstSeenDedup l ↔ a ∈ l := by
  induction l using firstSeenDedup.induct with
  | case1 => simp [firstSeenDedup]
  | case2 x xs ih =>
    rw [firstSeenDedup]
    by_cases hax : a = x
    · simp [hax]
    · simp only [List.mem_cons, hax, false_or, ih, List.mem_filter]
      simp [hax]

theorem nodup_firstSeenDedup (l : List Nat) : (firstSeenDedup l).Nodup := by
  induction l using firstSeenDedup.induct with
  | case1 => simp [firstSeenDedup]
  | case2 x xs ih =>
    rw [firstSeenDedup]
    refine List.nodup_cons.mpr ⟨?_, ih⟩
    intro hx
    have := (mem_firstSeenDedup _ _).mp hx
    simp [List.mem_filter] at this

theorem firstSeenDedup_of_nodup (l : List Nat) (h : l.Nodup) :
    firstSeenDedup l = l := by
  induction l with
  | nil => rw [firstSeenDedup]
  | cons x xs ih =>
    rw [List.nodup_cons] at h
    rw [firstSeenDedup, List.filter_eq_self.mpr, ih h.2]
    intro a ha
    simp only [ne_eq, decide_eq_true_eq]
    intro hax
    exact h.1 (hax ▸ ha)

theorem firstSeenDedup_idem (l : List Nat) :
    firstSeenDedup (firstSeenDedup l) = firstSeenDedup l :=
  firstSeenDedup_of_nodup _ (nodup_firstSeenDedup l)

/-! ### Decoder lemmas -/

theorem getActionableFailureReasons_eq (code : Nat) :
    getActionableFailureReasons code =
      if (code % 2 ^ 32) &&& (1 <<< 13) = 0
      then ([], code != 0)
      else (["Unsupported CSS Property"],
        ((code % 2 ^ 32) &&& (2 ^ 32 - 1 - (1 <<< 13))) != 0) := by
  by_cases h : (code % 4294967296) &&& 8192 = 0 <;>
    simp [getActionableFailureReasons, ACTIONABLE_FAILURE_REASONS,
      show (1 : Nat) <<< 13 = 8192 from rfl,
      show (2 : Nat) ^ 32 = 4294967296 from by norm_num, h]

theorem and_two_pow_13 (code : Nat) (h : code &&& (1 <<< 13) ≠ 0) :
    code &&& (1 <<< 13) = 1 <<< 13 := by
  have h13 : (1 : Nat) <<< 13 = 2 ^ 13 := by decide
  rw [h13] at h ⊢
  rw [Nat.and_two_pow] at h ⊢
  cases htb : code.testBit 13 with
  | false => rw [htb] at h; simp at h
  | true => simp

/-! ### Test fixtures (from trace-elements-test.js and §8 scenarios) -/

/-- Rect literal helper (`[x, y, width, height]`). -/
def mkR (x y w h : ℚ) : Rect := ⟨x, y, w, h⟩

/-- Scenario A, sample 1: `totalScore = 1`, nodes 60 and 25. -/
def sampleA1 : LayoutShiftSample :=
  ⟨1, [⟨60, mkR 0 0 200 100, mkR 0 0 200 200⟩,
       ⟨25, mkR 0 100 200 100, mkR 0 300 200 200⟩]⟩

/-- Scenario A, sample 2: `totalScore = 0.3`, node 60 alone. -/
def sampleA2 : LayoutShiftSample :=
  ⟨3/10, [⟨60, mkR 0 0 200 200, mkR 0 100 200 200⟩]⟩

/-- Scenario B, sample 1: `totalScore = 1`, nodes 1 and 2. -/
def sampleB1 : LayoutShiftSample :=
  ⟨1, [⟨1, mkR 0 0 100 100, mkR 0 100 100 100⟩,
       ⟨2, mkR 0 100 100 100, mkR 0 200 100 100⟩]⟩

/-- Scenario B, sample 2: `totalScore = 1`, node 3 alone. -/
def sampleB2 : LayoutShiftSample :=
  ⟨1, [⟨3, mkR 0 100 200 200, mkR 0 100 200 200⟩]⟩

/-- Scenario B, sample 3: `totalScore = 0.75`, nodes 4, 5, 6, 7. -/
def sampleB3 : LayoutShiftSample :=
  ⟨3/4, [⟨4, mkR 0 0 100 100, mkR 0 0 100 50⟩,
         ⟨5, mkR 0 0 100 100, mkR 0 0 100 50⟩,
         ⟨6, mkR 0 0 100 100, mkR 0 0 100 200⟩,
         ⟨7, mkR 0 0 100 100, mkR 0 0 100 200⟩]⟩

/-- An animation begin fragment (`ph: 'b'`) for key `k` and node `nid`. -/
def animBegin (k : String) (nid : Nat) : TraceEvent :=
  ⟨"Animation", "b", some k, some ⟨some nid, none⟩⟩

/-- An animation composite-status fragment (`ph: 'n'`) for key `k`
carrying failure code `code`. -/
def animStatus (k : String) (code : Nat) : TraceEvent :=
  ⟨"Animation", "n", some k, some ⟨none, some code⟩⟩

/-! ### Claim C1: score conservation -/

/-- C1. For every set of layout-shift samples (each with the data
model's non-empty `impactedRegions`), the sum of the cumulative scores
of the returned top-five elements plus the sum of the omitted elements'
cumulative scores equals the sum of all samples' `totalScore` — exactly,
in the rational model (hence within floating-point epsilon). -/
theorem score_conservation (samples : List LayoutShiftSample)
    (h : ∀ s ∈ samples, s.impactedRegions ≠ []) :
    sumValues (getTopLayoutShiftElements samples) +
        sumValues ((sortDesc (attributeShifts samples)).drop 5) =
      (samples.map LayoutShiftSample.totalScore).sum := by
  unfold getTopLayoutShiftElements
  have htd : ∀ l : List (Nat × ℚ),
      sumValues (l.take 5) + sumValues (l.drop 5) = sumValues l := by
    intro l
    unfold sumValues
    conv_rhs => rw [← List.take_append_drop 5 l]
    rw [List.map_append, List.sum_append]
  rw [htd, sumValues_sortDesc, sumValues_attributeShifts _ h]

/-- Witness for C1 at Scenario A's two samples. -/
theorem score_conservation_witness :
    (∀ s ∈ [sampleA1, sampleA2], s.impactedRegions ≠ []) ∧
      sumValues (getTopLayoutShiftElements [sampleA1, sampleA2]) +
          sumValues ((sortDesc (attributeShifts [sampleA1, sampleA2])).drop 5) =
        ([sampleA1, sampleA2].map LayoutShiftSample.totalScore).sum := by
  have h : ∀ s ∈ [sampleA1, sampleA2], s.impactedRegions ≠ [] := by
    simp [sampleA1, sampleA2]
  exact ⟨h, score_conservation _ h⟩

/-! ### Claim C2: top-N bound and descending order -/

/-- C2. The attribution output never exceeds 5 entries and is sorted by
cumulative score in descending order (ties adjacent); the tie-break is
deterministic and stable — the sort is a pure stable insertion by score,
and on Scenario B's fixture the tied elements appear exactly in
first-seen order, matching the unit test's expected output. -/
theorem top_layout_shift_bound_sorted :
    (∀ samples : List LayoutShiftSample,
      (getTopLayoutShiftElements samples).length ≤ 5 ∧
        (getTopLayoutShiftElements samples).Pairwise (fun a b => b.2 ≤ a.2)) ∧
      getTopLayoutShiftElements [sampleB1, sampleB2, sampleB3] =
        [(3, 1), (1, 1/2), (2, 1/2), (6, 1/4), (7, 1/4)] := by
  constructor
  · intro samples
    refine ⟨List.length_take_le _ _, ?_⟩
    exact (sorted_sortDesc (attributeShifts samples)).sublist
      (List.take_sublist _ _)
  · norm_num [getTopLayoutShiftElements, attributeShifts, attributeSample,
      sampleShares, sampleWeights, impactWeight, rectArea, overlapArea,
      sampleB1, sampleB2, sampleB3, mkR, upsert, sortDesc, insertDesc]

/-! ### Claim C3: decoder exactness under the actionable-only policy -/

theorem masked_clear_ne_zero (w : Nat) (hw : w < 2 ^ 32)
    (hbit : w &&& (1 <<< 13) ≠ 0) (hne : w ≠ 1 <<< 13) :
    w &&& (2 ^ 32 - 1 - (1 <<< 13)) ≠ 0 := by
  have hb13 : w.testBit 13 = true := by
    have h := and_two_pow_13 w hbit
    rw [show (1 : Nat) <<< 13 = 2 ^ 13 from rfl, Nat.and_two_pow] at h
    cases htb : w.testBit 13 with
    | true => rfl
    | false => rw [htb] at h; simp at h
  have hmask : (2 ^ 32 - 1 - (1 <<< 13) : Nat) = (2 ^ 32 - 1) ^^^ (2 ^ 13) := by
    decide
  intro hz
  apply hne
  rw [show (1 : Nat) <<< 13 = 2 ^ 13 from rfl]
  apply Nat.eq_of_testBit_eq
  intro i
  have hzb := congrArg (fun n => n.testBit i) hz
  simp only [hmask, Nat.testBit_and, Nat.testBit_xor, Nat.testBit_two_pow_sub_one,
    Nat.zero_testBit] at hzb
  by_cases h13 : i = 13
  · subst h13
    rw [hb13, Nat.testBit_two_pow_self]
  · have hp13 : (2 ^ 13 : Nat).testBit i = false :=
      Nat.testBit_two_pow_of_ne (fun hh => h13 hh.symm)
    have hp13n : Nat.testBit 8192 i = false := by simpa using hp13
    rw [hp13]
    by_cases h32 : i < 32
    · simpa [hp13n, h32] using hzb
    · exact Nat.testBit_lt_two_pow (lt_of_lt_of_le hw
        (Nat.pow_le_pow_right (by norm_num) (by omega)))

/-- C3. The decoder's bitwise ops are 32-bit (ECMA ToInt32). A code
whose 32-bit pattern is exactly bit `1 << 13` decodes to the one reason
`'Unsupported CSS Property'` with no non-actionable causes, and a
resolved pair carrying it yields exactly one diagnostic row with one
node; a code whose 32-bit pattern has bit `1 << 13` plus at least one
other set bit marks non-actionable causes and yields zero diagnostics
under the actionable-only policy. The last conjunct exercises the wrap:
`2 ^ 32 + 8192` behaves exactly like `8192`. -/
theorem decoder_exactness :
    (getActionableFailureReasons (1 <<< 13) = (["Unsupported CSS Property"], false) ∧
      auditResults [animBegin "0x1" 5, animStatus "0x1" (1 <<< 13)] =
        [⟨"~placeholder~", "Unsupported CSS Property", [mkNode 5]⟩]) ∧
    (∀ code : Nat, (code % 2 ^ 32) &&& (1 <<< 13) ≠ 0 →
      code % 2 ^ 32 ≠ 1 <<< 13 →
      (getActionableFailureReasons code).2 = true ∧
        auditResults [animBegin "0x1" 5, animStatus "0x1" code] = []) ∧
    (getActionableFailureReasons (2 ^ 32 + 8192) =
        (["Unsupported CSS Property"], false) ∧
      auditResults [animBegin "0x1" 5, animStatus "0x1" (2 ^ 32 + 8192)] =
        [⟨"~placeholder~", "Unsupported CSS Property", [mkNode 5]⟩]) := by
  refine ⟨⟨by decide, by decide⟩, ?_, by decide, by decide⟩
  intro code hbit hne
  have hlt : code % 2 ^ 32 < 2 ^ 32 := Nat.mod_lt _ (by norm_num)
  have h2 : (getActionableFailureReasons code).2 = true := by
    rw [getActionableFailureReasons_eq, if_neg hbit]
    simpa using masked_clear_ne_zero _ hlt hbit hne
  have hcode0 : code ≠ 0 := by
    intro hz
    subst hz
    simp at hbit
  refine ⟨h2, ?_⟩
  have hq : qualifies ⟨some (animBegin "0x1" 5), some (animStatus "0x1" code)⟩
      = none := by
    simp [qualifies, animBegin, animStatus, hcode0, h2]
  have hbp : buildPairs [animBegin "0x1" 5, animStatus "0x1" code] =
      [("0x1", ⟨some (animBegin "0x1" 5), some (animStatus "0x1" code)⟩)] := rfl
  unfold auditResults
  rw [hbp]
  rw [collectAnimations_eq_nil]
  · rfl
  · simp [hq]

/-- Witness for C3's suppression half at code `8193 = (1 << 13) | 1`. -/
theorem decoder_exactness_witness :
    (getActionableFailureReasons 8193).2 = true ∧
      auditResults [animBegin "0x1" 5, animStatus "0x1" 8193] = [] :=
  decoder_exactness.2.1 8193 (by decide) (by decide)

/-! ### Claim C4: pairing completeness -/

theorem qualifies_of_begin_none (p : Pair) (h : p.begin = none) :
    qualifies p = none := by
  unfold qualifies
  rw [h]

theorem qualifies_of_status_none (p : Pair) (h : p.status = none) :
    qualifies p = none := by
  obtain ⟨pb, ps⟩ := p
  simp only at h
  subst h
  cases pb with
  | none => rfl
  | some b =>
    cases hbd : b.data with
    | none => simp [qualifies, hbd]
    | some bd =>
      cases hnid : bd.nodeId with
      | none => simp [qualifies, hbd, hnid]
      | some nid =>
        by_cases h0 : nid = 0 <;> simp [qualifies, hbd, hnid, h0]

theorem alookup_eq_none {β : Type} (l : List (String × β)) (k : String) :
    alookup l k = none ↔ k ∉ l.map Prod.fst := by
  induction l with
  | nil => simp [alookup]
  | cons hd tl ih =>
    obtain ⟨k', v⟩ := hd
    by_cases h : k' = k
    · simp [alookup, h]
    · simp only [alookup, if_neg h, ih, List.map_cons, List.mem_cons]
      constructor
      · intro hnm hc
        rcases hc with hc | hc
        · exact h hc.symm
        · exact hnm hc
      · intro hnm hm
        exact hnm (Or.inr hm)

theorem keys_aupdate {β : Type} (l : List (String × β)) (k : String) (f : β → β) :
    (aupdate l k f).map Prod.fst = l.map Prod.fst := by
  induction l with
  | nil => simp [aupdate]
  | cons hd tl ih =>
    obtain ⟨k', v⟩ := hd
    by_cases h : k' = k <;> simp [aupdate, h, ih]

theorem nodupKeys_stepPair (acc : List (String × Pair)) (e : TraceEvent)
    (h : (acc.map Prod.fst).Nodup) : ((stepPair acc e).map Prod.fst).Nodup := by
  unfold stepPair
  cases hkey : evKey e with
  | none => exact h
  | some k =>
    cases hl : alookup acc k with
    | some p =>
      simp only [hl, Option.isSome_some, if_true]
      rw [keys_aupdate]
      exact h
    | none =>
      have hk : k ∉ acc.map Prod.fst := (alookup_eq_none acc k).mp hl
      simp only [hl, Option.isSome_none, Bool.false_eq_true, if_false]
      rw [keys_aupdate, List.map_append, List.map_cons, List.map_nil,
        List.nodup_append]
      refine ⟨h, List.nodup_singleton _, ?_⟩
      intro a ha hb
      rw [List.mem_singleton] at hb
      subst hb
      exact hk ha

/-- The pairer's map never holds two entries for one key. -/
theorem nodupKeys_buildPairs (evs : List TraceEvent) :
    ((buildPairs evs).map Prod.fst).Nodup := by
  suffices hsuf : ∀ acc : List (String × Pair), (acc.map Prod.fst).Nodup →
      (((evs.foldl stepPair acc).map Prod.fst)).Nodup from hsuf [] (by simp)
  induction evs with
  | nil => intro acc h; exact h
  | cons e rest ih =>
    intro acc h
    exact ih _ (nodupKeys_stepPair _ _ h)

theorem alookup_of_mem {β : Type} (l : List (String × β)) (k : String) (p : β)
    (hn : (l.map Prod.fst).Nodup) (hm : (k, p) ∈ l) : alookup l k = some p := by
  induction l with
  | nil => simp at hm
  | cons hd tl ih =>
    obtain ⟨k', v⟩ := hd
    rw [List.map_cons, List.nodup_cons] at hn
    rcases List.mem_cons.mp hm with hm | hm
    · injection hm with h1 h2
      subst h1
      subst h2
      simp [alookup]
    · by_cases h : k' = k
      · subst h
        exact absurd (List.mem_map_of_mem Prod.fst hm) hn.1
      · simp only [alookup, if_neg h]
        exact ih hn.2 hm

theorem filterMap_drop_none_key (L : List (String × Pair)) (k : String)
    (h : ∀ p, (k, p) ∈ L → qualifies p = none) :
    (L.map Prod.snd).filterMap (fun p => (qualifies p).map Prod.snd) =
      ((L.filter (fun e => e.1 ≠ k)).map Prod.snd).filterMap
        (fun p => (qualifies p).map Prod.snd) := by
  induction L with
  | nil => rfl
  | cons hd tl ih =>
    obtain ⟨k₀, p₀⟩ := hd
    have htl := ih (fun p hp => h p (List.mem_cons_of_mem _ hp))
    by_cases hk : k₀ = k
    · subst hk
      have hq : qualifies p₀ = none := h p₀ (List.mem_cons_self _ _)
      rw [List.map_cons, List.filterMap_cons_none (by rw [hq]; rfl),
        List.filter_cons, if_neg (by simp), htl]
    · rw [List.map_cons, List.filter_cons, if_pos (by simpa using hk),
        List.map_cons, List.filterMap_cons, List.filterMap_cons, htl]

/-- C4. A correlation key for which the stream holds no begin fragment,
or no status fragment, never contributes a diagnostic: the pair the
pairer stores for such a key is rejected by the audit's completeness
guard, and the emitted node list is exactly the one computed from the
other keys' pairs alone — no diagnostic node is emitted for such a
key. -/
theorem pairing_completeness (evs : List TraceEvent) (k : String)
    (h : evs.filter (isBeginFor k) = [] ∨ evs.filter (isStatusFor k) = []) :
    (∀ p, alookup (buildPairs evs) k = some p → qualifies p = none) ∧
      qualifyingNodes evs =
        (((buildPairs evs).filter (fun e => e.1 ≠ k)).map Prod.snd).filterMap
          (fun p => (qualifies p).map Prod.snd) := by
  have hq : ∀ p, alookup (buildPairs evs) k = some p → qualifies p = none := by
    intro p hlk
    rw [alookup_buildPairs] at hlk
    unfold pairSpecLastWins at hlk
    by_cases ha : evs.any (fun e => evKey e = some k)
    · rw [if_pos ha] at hlk
      have hp : p = ⟨(evs.filter (isBeginFor k)).getLast?,
          (evs.filter (isStatusFor k)).getLast?⟩ := (Option.some_inj.mp hlk).symm
      rcases h with h | h
      · exact qualifies_of_begin_none p (by rw [hp, h]; rfl)
      · exact qualifies_of_status_none p (by rw [hp, h]; rfl)
    · rw [if_neg ha] at hlk
      exact absurd hlk (by simp)
  refine ⟨hq, ?_⟩
  unfold qualifyingNodes
  apply filterMap_drop_none_key
  intro p hp
  exact hq p (alookup_of_mem _ _ _ (nodupKeys_buildPairs evs) hp)

/-- Witness for C4: a key with only a begin fragment is stored with no
status and yields no diagnostic node: the emitted node list equals the
one from the remaining (empty) keys. -/
theorem pairing_completeness_witness :
    ([animBegin "0x1" 5].filter (isStatusFor "0x1") = []) ∧
      qualifies ⟨some (animBegin "0x1" 5), none⟩ = none ∧
      qualifyingNodes [animBegin "0x1" 5] =
        (((buildPairs [animBegin "0x1" 5]).filter
            (fun e => e.1 ≠ "0x1")).map Prod.snd).filterMap
          (fun p => (qualifies p).map Prod.snd) :=
  ⟨by decide,
    (pairing_completeness [animBegin "0x1" 5] "0x1" (Or.inr (by decide))).1 _
      (by decide),
    (pairing_completeness [animBegin "0x1" 5] "0x1" (Or.inr (by decide))).2⟩

/-! ### Claim C5: deduplicator idempotence -/

/-- The test's `makeAnimationTraceEvent`: an animation begin fragment
(`ph: 'b'`, fixed `id2.local`) for node `nid`. -/
def animEvB (nid : Nat) : TraceEvent :=
  ⟨"Animation", "b", some "0x363db876c8", some ⟨some nid, none⟩⟩

/-- The node ids of the animation-begin fragments, in stream order. -/
def animationBeginIds (evs : List TraceEvent) : List Nat :=
  evs.filterMap (fun e =>
    if e.name = "Animation" ∧ e.ph = "b" then e.data.bind EventData.nodeId
    else none)

theorem getAnimatedElements_eq (evs : List TraceEvent) :
    getAnimatedElements evs = firstSeenDedup (animationBeginIds evs) := rfl

/-- C5. The deduplicator is idempotent — rerunning it on its own output
changes nothing — and its output lists each distinct animated element id
exactly once (no duplicates, and exactly the ids of the begin
fragments), in first-seen order; on begin fragments for node ids
5, 5, 6 it yields `[5, 6]`. -/
theorem dedup_idempotent :
    (∀ l : List Nat, firstSeenDedup (firstSeenDedup l) = firstSeenDedup l) ∧
    (∀ evs : List TraceEvent, (getAnimatedElements evs).Nodup) ∧
    (∀ (evs : List TraceEvent) (a : Nat),
      a ∈ getAnimatedElements evs ↔ a ∈ animationBeginIds evs) ∧
    getAnimatedElements [animEvB 5, animEvB 5, animEvB 6] = [5, 6] := by
  refine ⟨firstSeenDedup_idem, ?_, ?_, ?_⟩
  · intro evs
    rw [getAnimatedElements_eq]
    exact nodup_firstSeenDedup _
  · intro evs a
    rw [getAnimatedElements_eq]
    exact mem_firstSeenDedup _ _
  · rw [getAnimatedElements_eq,
      show animationBeginIds [animEvB 5, animEvB 5, animEvB 6] = [5, 5, 6]
        from rfl,
      firstSeenDedup.eq_def]
    norm_num [firstSeenDedup.eq_def]

/-! ### Claim C6: missing trace is fatal -/

/-- C6. When the trace input is absent, `afterPass` fails with
`'Trace is missing!'` — for every driver behavior — and in particular
never returns an (empty or non-empty) element list. -/
theorem missing_trace_fatal (resolve : Nat → Option String)
    (callFn : String → Nat → Option AnimatedElement) (loadData : LoadData)
    (h : loadData.trace = none) :
    afterPass resolve callFn loadData = Except.error "Trace is missing!" ∧
      ∀ out : List AnimatedElement,
        afterPass resolve callFn loadData ≠ Except.ok out := by
  have he : afterPass resolve callFn loadData = Except.error "Trace is missing!" := by
    unfold afterPass
    rw [h]
  exact ⟨he, fun out hok => by rw [he] at hok; exact Except.noConfusion hok⟩

/-- Witness for C6 at a concrete trace-less invocation. -/
theorem missing_trace_fatal_witness :
    afterPass (fun _ => none) (fun _ _ => none) ⟨none⟩ =
        Except.error "Trace is missing!" ∧
      ∀ out : List AnimatedElement,
        afterPass (fun _ => none) (fun _ _ => none) ⟨none⟩ ≠ Except.ok out :=
  missing_trace_fatal _ _ ⟨none⟩ rfl

/-! ### Claim C7: is RESOLVED terminal and immutable? -/

/-- C7 counterexample. The claim says that once a key received its
status fragment, a later begin fragment does not change the recorded
begin. In the code the `case 'b'` assignment is unconditional: after
`begin(node 5); status; begin(node 7)` the stored pair's begin is the
node-7 event, not the node-5 event. -/
theorem resolved_not_immutable_counterexample :
    alookup (buildPairs [animBegin "0x1" 5, animStatus "0x1" 8192,
        animBegin "0x1" 7]) "0x1" =
      some ⟨some (animBegin "0x1" 7), some (animStatus "0x1" 8192)⟩ ∧
    animBegin "0x1" 7 ≠ animBegin "0x1" 5 := by
  exact ⟨by decide, by decide⟩

/-- C7 amended. The pairer's stored state for a key is exactly the last
begin fragment and the last status fragment seen for it: a later begin
(or status) fragment overwrites the stored one whether or not the key
already holds a status, so RESOLVED is not terminal. -/
theorem pairer_last_fragment_wins (evs : List TraceEvent) (k : String) :
    alookup (buildPairs evs) k = pairSpecLastWins evs k :=
  alookup_buildPairs evs k

/-! ### Claim C8: zero-delta division safety -/

/-- A sample whose two regions both have zero area delta (equal old/new
areas) but different impact areas: region 1 moved (disjoint rects),
region 2 did not move at all. -/
def zeroDeltaSample : LayoutShiftSample :=
  ⟨1, [⟨1, mkR 0 0 10 10, mkR 0 20 10 10⟩, ⟨2, mkR 0 0 10 10, mkR 0 0 10 10⟩]⟩

/-- C8 counterexample. The claim's antecedent is "sum of
`|area(newRect) - area(previousRect)|` is zero"; on `zeroDeltaSample`
that sum is zero, yet the attributor does not split the score equally
(1/2 each): the fixture-determined impact weighting assigns 2/3 and
1/3. -/
theorem zero_area_delta_counterexample :
    absAreaDeltaSum zeroDeltaSample = 0 ∧
    attributeShifts [zeroDeltaSample] = [(1, 2/3), (2, 1/3)] ∧
    attributeShifts [zeroDeltaSample] ≠
      zeroDeltaSample.impactedRegions.map (fun r =>
        (r.node_id, zeroDeltaSample.totalScore /
          zeroDeltaSample.impactedRegions.length)) := by
  refine ⟨?_, ?_, ?_⟩
  · norm_num [absAreaDeltaSum, zeroDeltaSample, mkR, rectArea]
  · norm_num [attributeShifts, attributeSample, sampleShares, sampleWeights,
      impactWeight, rectArea, overlapArea, zeroDeltaSample, mkR, upsert]
  · norm_num [attributeShifts, attributeSample, sampleShares, sampleWeights,
      impactWeight, rectArea, overlapArea, zeroDeltaSample, mkR, upsert]

/-- C8 amended. The division-safety guard keys on the attributor's own
weights, not on the area deltas: a sample whose *impact weights* sum to
zero has its `totalScore` split equally among its regions, and a
single-region sample always receives 100% of its sample's score. -/
theorem zero_weight_equal_split
    (s : LayoutShiftSample) (hw : (sampleWeights s).sum = 0) :
    sampleShares s = s.impactedRegions.map (fun r =>
        (r.node_id, s.totalScore / s.impactedRegions.length)) ∧
    ∀ (t : ℚ) (r : ImpactedRegion),
      attributeShifts [⟨t, [r]⟩] = [(r.node_id, t)] := by
  constructor
  · unfold sampleShares
    rw [hw]
    simp
  · intro t r
    have hshares : sampleShares ⟨t, [r]⟩ = [(r.node_id, t)] := by
      unfold sampleShares sampleWeights
      by_cases h0 : impactWeight r.old_rect r.new_rect = 0
      · simp [h0]
      · simp [h0, mul_div_cancel_right₀ _ h0]
    show attributeSample [] ⟨t, [r]⟩ = [(r.node_id, t)]
    unfold attributeSample
    rw [hshares]
    rfl

/-- Witness for C8's amended statement at an all-zero-rect sample. -/
theorem zero_weight_equal_split_witness :
    (sampleWeights ⟨1, [⟨1, mkR 0 0 0 0, mkR 0 0 0 0⟩,
        ⟨2, mkR 0 0 0 0, mkR 0 0 0 0⟩]⟩).sum = 0 ∧
    sampleShares ⟨1, [⟨1, mkR 0 0 0 0, mkR 0 0 0 0⟩,
        ⟨2, mkR 0 0 0 0, mkR 0 0 0 0⟩]⟩ =
      ([⟨1, mkR 0 0 0 0, mkR 0 0 0 0⟩,
        ⟨2, mkR 0 0 0 0, mkR 0 0 0 0⟩] : List ImpactedRegion).map (fun r =>
          (r.node_id, (1 : ℚ) / 2)) ∧
    attributeShifts [⟨(7 : ℚ), [⟨3, mkR 0 0 4 4, mkR 0 8 4 4⟩]⟩] = [(3, 7)] := by
  have hw : (sampleWeights ⟨1, [⟨1, mkR 0 0 0 0, mkR 0 0 0 0⟩,
      ⟨2, mkR 0 0 0 0, mkR 0 0 0 0⟩]⟩).sum = 0 := by
    simp [sampleWeights, impactWeight, rectArea, overlapArea, mkR]
  refine ⟨hw, ?_, (zero_weight_equal_split _ hw).2 7 _⟩
  have h2 := (zero_weight_equal_split _ hw).1
  simpa using h2

/-! ### Claim C9: single-group diagnostic table -/

/-- C9. All qualifying animations are grouped under the constant key
`'~placeholder~'`, so the results table holds at most one row, and that
row's `subItems` collect the nodes of every qualifying pair in pairer
order. -/
theorem single_placeholder_row (evs : List TraceEvent) :
    (auditResults evs).length ≤ 1 ∧
      ∀ row ∈ auditResults evs,
        row.animation = "~placeholder~" ∧ row.subItems = qualifyingNodes evs := by
  have hqn : qualifyingNodes evs =
      (((buildPairs evs).map Prod.snd).filterMap qualifies).map Prod.snd := by
    unfold qualifyingNodes
    rw [List.map_filterMap]
  cases hql : ((buildPairs evs).map Prod.snd).filterMap qualifies with
  | nil =>
    have hres : auditResults evs = [] := by
      unfold auditResults
      rw [collectAnimations_eq_nil _ hql]
      rfl
    simp [hres]
  | cons hd rest =>
    obtain ⟨rs, n⟩ := hd
    have hres : auditResults evs =
        [⟨"~placeholder~", String.intercalate ", " rs, n :: rest.map Prod.snd⟩] := by
      unfold auditResults
      rw [collectAnimations_eq_cons _ _ _ _ hql]
      rfl
    rw [hres, hqn, hql]
    refine ⟨by simp, ?_⟩
    intro row hrow
    rw [List.mem_singleton] at hrow
    subst hrow
    exact ⟨rfl, by simp⟩

/-- Witness for C9 at a one-pair stream: the single row carries the
placeholder key and the qualifying node. -/
theorem single_placeholder_row_witness :
    (auditResults [animBegin "0x1" 5, animStatus "0x1" 8192]).length ≤ 1 ∧
      (⟨"~placeholder~", "Unsupported CSS Property", [mkNode 5]⟩ : TableItem) ∈
        auditResults [animBegin "0x1" 5, animStatus "0x1" 8192] ∧
      ("~placeholder~" : String) = "~placeholder~" ∧
      [mkNode 5] = qualifyingNodes [animBegin "0x1" 5, animStatus "0x1" 8192] := by
  have hmem : (⟨"~placeholder~", "Unsupported CSS Property", [mkNode 5]⟩ : TableItem) ∈
      auditResults [animBegin "0x1" 5, animStatus "0x1" 8192] := by decide
  have h := (single_placeholder_row [animBegin "0x1" 5, animStatus "0x1" 8192]).2 _ hmem
  exact ⟨(single_placeholder_row _).1, hmem, h.1, h.2⟩

/-! ### Claim C10: zero values behave like missing fields -/

/-- C10. A pair whose begin payload carries `nodeId = 0`, or whose
status payload carries `compositeFailed = 0` or no `compositeFailed` at
all, is skipped by the truthiness guards exactly like a pair with the
field missing: it produces no diagnostic. -/
theorem zero_values_skipped (p : Pair)
    (h : (p.begin.bind TraceEvent.data).bind EventData.nodeId = some 0 ∨
      (p.status.bind TraceEvent.data).bind EventData.compositeFailed = some 0 ∨
      (p.status.bind TraceEvent.data).bind EventData.compositeFailed = none) :
    qualifies p = none := by
  obtain ⟨pb, ps⟩ := p
  cases pb with
  | none => rfl
  | some b =>
    cases hbd : b.data with
    | none => simp [qualifies, hbd]
    | some bd =>
      cases hnid : bd.nodeId with
      | none => simp [qualifies, hbd, hnid]
      | some nid =>
        by_cases h0 : nid = 0
        · simp [qualifies, hbd, hnid, h0]
        · have hbnid : ((some b).bind TraceEvent.data).bind EventData.nodeId =
              some nid := by simp [hbd, hnid]
          rcases h with h | h
          · rw [hbnid] at h
            exact absurd (Option.some_inj.mp h) h0
          · cases ps with
            | none => exact qualifies_of_status_none _ rfl
            | some s =>
              cases hsd : s.data with
              | none => simp [qualifies, hbd, hnid, h0, hsd]
              | some sd =>
                cases hcf : sd.compositeFailed with
                | none => simp [qualifies, hbd, hnid, h0, hsd, hcf]
                | some code =>
                  have hscf : ((some s).bind TraceEvent.data).bind
                      EventData.compositeFailed = some code := by simp [hsd, hcf]
                  rw [hscf] at h
                  rcases h with h | h
                  · have hc0 : code = 0 := Option.some_inj.mp h
                    simp [qualifies, hbd, hnid, h0, hsd, hcf, hc0]
                  · exact absurd h (by simp)

/-- Witness for C10 at a pair whose begin payload has `nodeId = 0`. -/
theorem zero_values_skipped_witness :
    ((some (animBegin "0x1" 0)).bind TraceEvent.data).bind EventData.nodeId =
        some 0 ∧
      qualifies ⟨some (animBegin "0x1" 0), some (animStatus "0x1" 8192)⟩ = none :=
  ⟨by decide,
    zero_values_skipped ⟨some (animBegin "0x1" 0), some (animStatus "0x1" 8192)⟩
      (Or.inl (by decide))⟩
